import Mathlib

/-!
Verification of the agent.md bridge (browser-extension MCP bridge).

Shallow embedding of the repository's JavaScript sources:
  * `src/background.js` — manifest parser (`parseAgentMd`), contract cache
    (`fetchAndParseContract`, `INVALIDATE_CACHE`), action invoker
    (`callAgentAction`), RPC dispatcher (`handleToolsList`, `handleToolCall`,
    `buildInputSchema`, `mapType`), native-host reconnect (`connectNativeHost`).
  * `src/agent.js` — MCP client request bookkeeping (`MCPClient`).
  * the native messaging host — length-prefixed framing
    (`readMessage` / `sendMessage`).

JavaScript strings are modelled as Lean `String`, operated on through their
character lists so that everything is executable and kernel-reducible.
JavaScript objects used as string-keyed maps are modelled as association
lists with JavaScript property-assignment semantics.
-/

namespace AgentMd

/-! ### JavaScript string primitives (character-list based) -/

/-- `String.prototype.startsWith` : does `s` start with `p`? -/
def charsStartWith : List Char → List Char → Bool
  | [], _ => true
  | _ :: _, [] => false
  | p :: ps, c :: cs => p = c && charsStartWith ps cs

/-- `s.startsWith(p)`. -/
def jsStartsWith (s p : String) : Bool := charsStartWith p.data s.data

/-- `s.slice(n)` : drop the first `n` characters. -/
def jsDrop (s : String) (n : Nat) : String := String.mk (s.data.drop n)

/-- JavaScript whitespace characters relevant to `trim` (the sources only
contain ASCII whitespace). -/
def isJsSpace (c : Char) : Bool := c = ' ' || c = '\t' || c = '\r' || c = '\n'

/-- `s.trim()`. -/
def jsTrim (s : String) : String :=
  String.mk (((s.data.dropWhile isJsSpace).reverse.dropWhile isJsSpace).reverse)

/-- `s.toLowerCase()` (the sources only compare ASCII section names). -/
def jsToLower (s : String) : String := String.mk (s.data.map Char.toLower)

/-- `markdown.split('\n')` : split on newlines, keeping empty fragments. -/
def splitLinesAux : List Char → List Char → List String
  | acc, [] => [String.mk acc.reverse]
  | acc, '\n' :: rest => String.mk acc.reverse :: splitLinesAux [] rest
  | acc, c :: rest => splitLinesAux (c :: acc) rest

/-- `markdown.split('\n')`. -/
def splitLines (s : String) : List String := splitLinesAux [] s.data

/-! ### JSON values

Model of the JSON-serializable JavaScript values flowing through the
bridge (action results, tool-call arguments). -/

inductive JVal where
  | jnull : JVal
  | jbool : Bool → JVal
  | jnum : Int → JVal
  | jstr : String → JVal
  | jarr : List JVal → JVal
  | jobj : List (String × JVal) → JVal

/-- Property lookup `v[k]` : `none` models JavaScript `undefined`. -/
def jLookup : JVal → String → Option JVal
  | .jobj fs, k => fs.lookup k
  | _, _ => none

/-- `x === false` for `x` an optional JSON value (`none` = `undefined`). -/
def jEqFalse : Option JVal → Bool
  | some (.jbool false) => true
  | _ => false

/-- JSON string escaping for `JSON.stringify` (the escapes that can occur in
the bridge's string data). -/
def jsonEscapeChar (c : Char) : List Char :=
  if c = '"' then ['\\', '"']
  else if c = '\\' then ['\\', '\\']
  else if c = '\n' then ['\\', 'n']
  else if c = '\r' then ['\\', 'r']
  else if c = '\t' then ['\\', 't']
  else [c]

/-- `JSON.stringify` of a string. -/
def jsonQuote (s : String) : String :=
  String.mk ('"' :: (s.data.map jsonEscapeChar).flatten ++ ['"'])

mutual

/-- `JSON.stringify`. -/
def jsonStringify : JVal → String
  | .jnull => "null"
  | .jbool true => "true"
  | .jbool false => "false"
  | .jnum n => toString n
  | .jstr s => jsonQuote s
  | .jarr xs => "[" ++ jsonStringifyArr xs ++ "]"
  | .jobj fs => "\x7b" ++ jsonStringifyObj fs ++ "\x7d"

/-- Comma-separated serialization of array elements. -/
def jsonStringifyArr : List JVal → String
  | [] => ""
  | [v] => jsonStringify v
  | v :: vs => jsonStringify v ++ "," ++ jsonStringifyArr vs

/-- Comma-separated serialization of object fields. -/
def jsonStringifyObj : List (String × JVal) → String
  | [] => ""
  | [(k, v)] => jsonQuote k ++ ":" ++ jsonStringify v
  | (k, v) :: fs => jsonQuote k ++ ":" ++ jsonStringify v ++ "," ++ jsonStringifyObj fs

end

/-! ### Contract data model (`parseAgentMd` in `src/background.js`) -/

/-- The `auth` object of a contract (`contract.auth.type`, `contract.auth.note`;
fields start absent). -/
structure Auth where
  «type» : Option String
  note : Option String
deriving DecidableEq, Repr

/-- One parsed parameter line of an action. -/
structure Param where
  name : String
  «type» : String
  required : Bool
  description : String
deriving DecidableEq, Repr

/-- One parsed action block (`### <name>` inside `## Actions`). -/
structure Action where
  name : String
  description : String
  params : List Param
  returns : String
  «example» : String
deriving DecidableEq, Repr

/-- A parsed contract. -/
structure Contract where
  appName : String
  description : String
  auth : Auth
  actions : List Action
deriving DecidableEq, Repr

/-- `{ appName: '', description: '', auth: {}, actions: [] }`. -/
def initialContract : Contract := ⟨"", "", ⟨none, none⟩, []⟩

/-- The mutable scan state of `parseAgentMd`'s line loop. -/
structure ParseState where
  contract : Contract
  «section» : Option String
  currentAction : Option Action
  inActionsSection : Bool

/-- The `,\s*(required|optional)\):` tail of the param-line regex, tried at a
candidate split position: consume `,`, then whitespace, then
`required):` or `optional):`; return the required flag and the remaining
characters. -/
def tryCommaPattern : List Char → Option (Bool × List Char)
  | ',' :: rest =>
    let r2 := rest.dropWhile isJsSpace
    if charsStartWith "required):".data r2 then some (true, r2.drop 10)
    else if charsStartWith "optional):".data r2 then some (false, r2.drop 10)
    else none
  | _ => none

/-- The lazy `(.+?)` of the param-line regex: find the shortest non-empty
chunk of characters after which `tryCommaPattern` matches. -/
def lazyScan : List Char → List Char → Option (List Char × Bool × List Char)
  | _, [] => none
  | acc, c :: rest =>
    if acc.isEmpty then lazyScan [c] rest
    else
      match tryCommaPattern (c :: rest) with
      | some (req, tail) => some (acc.reverse, req, tail)
      | none => lazyScan (c :: acc) rest

/-- `\w` of the param-line regex: `[A-Za-z0-9_]`. -/
def isWordChar (c : Char) : Bool := c.isAlphanum || c = '_'

/-- The param-line regex
`/^- (\w+) \((.+?),\s*(required|optional)\):\s*(.*)/` applied to a stripped
line: `- name (type, required|optional): description`.  The lazy group and
the maximal-munch groups are equivalent to the backtracking regex here
because `\w`, `\s` and the literal characters that follow them are
disjoint. -/
def parseParamLine (stripped : String) : Option Param :=
  match stripped.data with
  | '-' :: ' ' :: rest =>
    let nameCs := rest.takeWhile isWordChar
    if nameCs.isEmpty then none
    else
      match rest.drop nameCs.length with
      | ' ' :: '(' :: rest3 =>
        match lazyScan [] rest3 with
        | some (tyCs, req, tail) =>
          some ⟨String.mk nameCs, jsTrim (String.mk tyCs), req, jsTrim (String.mk tail)⟩
        | none => none
      | _ => none
  | _ => none

/-- Body line of an in-progress action (`// Parse action properties`). -/
def parseActionBodyLine (a : Action) (line : String) : Action :=
  let stripped := jsTrim line
  if jsStartsWith stripped "- description:" then
    { a with description := jsTrim (jsDrop stripped 14) }
  else if jsStartsWith stripped "- returns:" then
    { a with returns := jsTrim (jsDrop stripped 10) }
  else if jsStartsWith stripped "- example:" then
    { a with «example» := jsTrim (jsDrop stripped 10) }
  else if jsStartsWith stripped "- params:" ∧ stripped = "- params: none" then
    { a with params := [] }
  else
    match parseParamLine stripped with
    | some p => { a with params := a.params ++ [p] }
    | none => a

/-- Body line of the `## Auth` section. -/
def parseAuthLine (auth : Auth) (line : String) : Auth :=
  let stripped := jsTrim line
  if jsStartsWith stripped "- type:" then { auth with «type» := some (jsTrim (jsDrop stripped 7)) }
  else if jsStartsWith stripped "- note:" then { auth with note := some (jsTrim (jsDrop stripped 7)) }
  else auth

/-- One iteration of `parseAgentMd`'s `for` loop over lines. -/
def parseLine (st : ParseState) (line : String) : ParseState :=
  if jsStartsWith line "# " ∧ st.contract.appName = "" then
    { st with contract := { st.contract with appName := jsTrim (jsDrop line 2) } }
  else if jsStartsWith line "> " ∧ st.contract.description = "" then
    { st with contract := { st.contract with description := jsTrim (jsDrop line 2) } }
  else if jsStartsWith line "## " then
    let sec := jsToLower (jsTrim (jsDrop line 3))
    { st with «section» := some sec, inActionsSection := decide (sec = "actions"),
              currentAction := none }
  else if jsStartsWith line "### " ∧ st.inActionsSection then
    { st with
      contract := { st.contract with
        actions := match st.currentAction with
          | some a => st.contract.actions ++ [a]
          | none => st.contract.actions },
      currentAction := some ⟨jsTrim (jsDrop line 4), "", [], "", ""⟩ }
  else
    match st.currentAction with
    | some a => { st with currentAction := some (parseActionBodyLine a line) }
    | none =>
      if st.«section» = some "auth" then
        { st with contract := { st.contract with auth := parseAuthLine st.contract.auth line } }
      else st

/-- The `if (currentAction) contract.actions.push(currentAction)` after the
loop. -/
def flushFinal (st : ParseState) : Contract :=
  match st.currentAction with
  | some a => { st.contract with actions := st.contract.actions ++ [a] }
  | none => st.contract

/-- `parseAgentMd` run over an already-split line list. -/
def parseLinesList (lines : List String) : Contract :=
  flushFinal (lines.foldl parseLine ⟨initialContract, none, none, false⟩)

/-- `parseAgentMd(markdown)` from `src/background.js`. -/
def parseAgentMd (markdown : String) : Contract := parseLinesList (splitLines markdown)

/-! ### Schema builder (`buildInputSchema`, `mapType` in `src/background.js`) -/

/-- One property of a generated input schema. -/
structure PropSchema where
  «type» : String
  description : String
deriving DecidableEq, Repr

/-- The JSON schema generated for one action. -/
structure InputSchema where
  «type» : String
  properties : List (String × PropSchema)
  required : List String
deriving DecidableEq, Repr

/-- JavaScript property assignment `obj[k] = v` on a string-keyed object:
an existing key keeps its position and gets the new value, a new key is
appended. -/
def objSet : List (String × PropSchema) → String → PropSchema → List (String × PropSchema)
  | [], k, v => [(k, v)]
  | (k', v') :: rest, k, v =>
    if k' = k then (k, v) :: rest else (k', v') :: objSet rest k v

/-- `mapType(type)` from `src/background.js`. -/
def mapType (ty : String) : String :=
  if ty = "string" then "string"
  else if ty = "number" ∨ ty = "integer" then "number"
  else if ty = "boolean" then "boolean"
  else "string"

/-- The body of `buildInputSchema`'s `for` loop. -/
def buildSchemaStep (acc : List (String × PropSchema) × List String) (param : Param) :
    List (String × PropSchema) × List String :=
  (objSet acc.1 param.name ⟨mapType param.«type», param.description⟩,
   if param.required then acc.2 ++ [param.name] else acc.2)

/-- `buildInputSchema(action)` from `src/background.js`. -/
def buildInputSchema (action : Action) : InputSchema :=
  if action.params = [] then ⟨"object", [], []⟩
  else
    let r := action.params.foldl buildSchemaStep ([], [])
    ⟨"object", r.1, r.2⟩

/-! ### Action invoker (`callAgentAction` in `src/background.js`)

The injected page function checks `window.__agent`, then
`typeof window.__agent[actionName] === 'function'`, then calls the action
inside `try/catch`.  A page is modelled by its (possibly absent)
`window.__agent` registry; a registry entry is either a function — which,
applied to the argument object, either returns a value or throws — or a
non-function property value. -/

/-- Outcome of calling a registered page function. -/
inductive InvokeOutcome where
  | returns : JVal → InvokeOutcome
  | throws : String → InvokeOutcome

/-- A property of the `window.__agent` registry. -/
inductive RegEntry where
  | fn : (JVal → InvokeOutcome) → RegEntry
  | nonFn : JVal → RegEntry

/-- The `window.__agent` registry of a page, `none` when the page does not
expose one. -/
def Registry := List (String × RegEntry)

/-- The function `callAgentAction` injects into the page: check
`window.__agent`, check `typeof window.__agent[actionName] === 'function'`,
then call the action inside `try/catch`. -/
def agentPageFunc (registry : Option Registry) (actionName : String) (params : JVal) : JVal :=
  match registry with
  | none => .jobj [("ok", .jbool false), ("error", .jstr "window.__agent is not available on this page")]
  | some reg =>
    match List.lookup actionName reg with
    | some (.fn f) =>
      match f params with
      | .returns v => v
      | .throws msg => .jobj [("ok", .jbool false), ("error", .jstr msg)]
    | _ =>
      .jobj [("ok", .jbool false),
             ("error", .jstr ("Action \"" ++ actionName ++ "\" not found on window.__agent"))]

/-- `callAgentAction(tabId, actionName, params)` : run `agentPageFunc` in
the tab via `chrome.scripting.executeScript` and normalize the delivered
frame result with `results[0]?.result ?? { ok:false, error:'Script
execution failed' }`.  The injected function's resolved value arrives as
`results[0].result`, with both a `null` and an `undefined` resolution
surfacing as a null result, so the nullish coalescing replaces exactly a
null result with the fallback error object (an injection that delivers no
frame result at all yields the same fallback object). -/
def callAgentAction (registry : Option Registry) (actionName : String) (params : JVal) : JVal :=
  match agentPageFunc registry actionName params with
  | .jnull => .jobj [("ok", .jbool false), ("error", .jstr "Script execution failed")]
  | v => v

/-! ### RPC dispatcher (`handleToolsList`, `handleToolCall` in
`src/background.js`) -/

/-- The active tab as the dispatcher sees it: the page's `window.__agent`
registry (reached via `chrome.scripting.executeScript` on `tab.id`). -/
structure Tab where
  registry : Option Registry

/-- One `{type:'text', text: ...}` content item of a tool-call result. -/
structure TextContent where
  «type» : String
  text : String
deriving DecidableEq, Repr

/-- The result payload of `tools/call`; `isError = none` models an object
without an `isError` property. -/
structure ToolCallResult where
  content : List TextContent
  isError : Option Bool
deriving DecidableEq, Repr

/-- `name.replace(/^agentmd_/, '')` : remove one leading `agentmd_`. -/
def stripAgentmd (name : String) : String :=
  if jsStartsWith name "agentmd_" then jsDrop name 8 else name

/-- `handleToolCall({name, arguments})` from `src/background.js`.  The
ambient `contractCache` of the service worker is passed explicitly; the
source function never reads it, which `handleToolCall_contract_untouched`
makes precise.  `args = none` models an absent `arguments` property
(`args || {}`). -/
def handleToolCall (contractCache : List (String × Contract)) (tab : Option Tab)
    (name : String) (args : Option JVal) : ToolCallResult :=
  match tab with
  | none =>
    ⟨[⟨"text", jsonStringify (.jobj [("ok", .jbool false), ("error", .jstr "No active tab")])⟩],
     none⟩
  | some t =>
    let actionName := stripAgentmd name
    let result := callAgentAction t.registry actionName (args.getD (.jobj []))
    ⟨[⟨"text", jsonStringify result⟩], some (jEqFalse (jLookup result "ok"))⟩

/-! ### Contract cache (`fetchAndParseContract`, `INVALIDATE_CACHE`) -/

/-- Outcome of `fetch(origin + '/agent.md')`: a network error (the `catch`
branch), a non-success HTTP status (`!res.ok`), or the body text. -/
inductive FetchOutcome where
  | networkError : FetchOutcome
  | httpError : FetchOutcome
  | success : String → FetchOutcome

/-- `fetchAndParseContract(origin)` from `src/background.js`, with the
network modelled as a function from origins to fetch outcomes and the
`contractCache` map threaded explicitly. -/
def fetchAndParseContract (fetch : String → FetchOutcome)
    (cache : List (String × Contract)) (origin : String) :
    Option Contract × List (String × Contract) :=
  match List.lookup origin cache with
  | some c => (some c, cache)
  | none =>
    match fetch origin with
    | .networkError => (none, cache)
    | .httpError => (none, cache)
    | .success text =>
      let contract := parseAgentMd text
      (some contract, cache ++ [(origin, contract)])

/-- The `INVALIDATE_CACHE` message handler: `contractCache.clear()`. -/
def invalidateCache (_cache : List (String × Contract)) : List (String × Contract) := []

/-- One MCP tool as returned by `tools/list`. -/
structure Tool where
  name : String
  description : String
  inputSchema : InputSchema
deriving DecidableEq, Repr

/-- `handleToolsList()` from `src/background.js`; the active tab is given by
its origin (`none` when there is no tab or it has no URL). -/
def handleToolsList (fetch : String → FetchOutcome)
    (cache : List (String × Contract)) (tabOrigin : Option String) :
    List Tool × List (String × Contract) :=
  match tabOrigin with
  | none => ([], cache)
  | some origin =>
    match fetchAndParseContract fetch cache origin with
    | (none, cache') => ([], cache')
    | (some c, cache') =>
      (c.actions.map fun a =>
        ⟨"agentmd_" ++ a.name, "[" ++ c.appName ++ "] " ++ a.description, buildInputSchema a⟩,
       cache')

/-! ### Native-host connection (`connectNativeHost` in `src/background.js`)

The connection logic as a step relation.  `connectNative` either returns a
port (whose later failure surfaces as a `disconnect` event on the port) or
throws synchronously; the `catch` branch only logs.  A `disconnect` event
runs the `onDisconnect` listener: it clears `nativePort` and calls
`setTimeout(connectNativeHost, 2000)`, recorded here as appending the delay
of the newly scheduled reconnect attempt. -/

/-- Events driving `connectNativeHost`. -/
inductive ConnEvent where
  | attemptOk : ConnEvent
  | attemptThrows : String → ConnEvent
  | disconnect : ConnEvent

/-- Connection state: whether `nativePort` is set, and the delays of the
reconnect attempts scheduled so far. -/
structure NativeConnState where
  connected : Bool
  scheduledReconnectDelays : List Nat
deriving DecidableEq, Repr

/-- One step of the connection lifecycle. -/
def connStep (st : NativeConnState) (e : ConnEvent) : NativeConnState :=
  match e with
  | .attemptOk => { st with connected := true }
  | .attemptThrows _ => st
  | .disconnect =>
    if st.connected then
      ⟨false, st.scheduledReconnectDelays ++ [2000]⟩
    else st

/-- A run of the connection lifecycle over a sequence of events. -/
def runConn (st : NativeConnState) (es : List ConnEvent) : NativeConnState :=
  es.foldl connStep st

/-! ### MCP client request bookkeeping (`MCPClient` in `src/agent.js`) -/

/-- A pending entry of `MCPClient.pendingRequests` (the stored callbacks are
identified by the request's method, which the timeout error message
uses). -/
structure PendingEntry where
  method : String
deriving DecidableEq, Repr

/-- The request-tracking state of an `MCPClient`. -/
structure ClientState where
  nextId : Nat
  pending : List (Nat × PendingEntry)
deriving DecidableEq, Repr

/-- A JSON-RPC response line as parsed by the client's `line` listener
(`id = none` models a message without an `id`; `error = some m` a message
with `error.message = m`). -/
structure RpcMsg where
  id : Option Nat
  error : Option String
  result : JVal

/-- How a pending request was settled. -/
inductive RequestOutcome where
  | resolved : JVal → RequestOutcome
  | rejected : String → RequestOutcome

/-- `MCPClient.request(method)` : allocate `id = nextId++`, store the
pending entry.  Returns the allocated id. -/
def sendRequest (st : ClientState) (method : String) : Nat × ClientState :=
  (st.nextId, ⟨st.nextId + 1, st.pending ++ [(st.nextId, ⟨method⟩)]⟩)

/-- The client's `line` listener for one parsed message: a matching pending
entry is removed and resolved/rejected with exactly this message; an
unknown or absent id is dropped. -/
def handleLine (st : ClientState) (msg : RpcMsg) : ClientState × Option (Nat × RequestOutcome) :=
  match msg.id with
  | none => (st, none)
  | some i =>
    match List.lookup i st.pending with
    | none => (st, none)
    | some _ =>
      (⟨st.nextId, st.pending.filter (fun kv => kv.1 ≠ i)⟩,
       some (i, match msg.error with
                | some e => .rejected e
                | none => .resolved msg.result))

/-- The `setTimeout` callback of `MCPClient.request` firing for request `i`
with method `method`: a still-pending entry is removed and rejected with
the timeout error. -/
def timeoutFire (st : ClientState) (i : Nat) (method : String) :
    ClientState × Option (Nat × RequestOutcome) :=
  match List.lookup i st.pending with
  | none => (st, none)
  | some _ =>
    (⟨st.nextId, st.pending.filter (fun kv => kv.1 ≠ i)⟩,
     some (i, .rejected ("Request timeout: " ++ method)))

/-! ### Native messaging framing (`readMessage` / `sendMessage` in the
native host)

Bytes are modelled as natural numbers; a message is its UTF-8 JSON payload
byte list. -/

/-- `writeUInt32LE(n)` : the 4 little-endian bytes of `n` (`n < 2^32`). -/
def toLE4 (n : Nat) : List Nat :=
  [n % 256, n / 256 % 256, n / 256 ^ 2 % 256, n / 256 ^ 3 % 256]

/-- `readUInt32LE(0)` on a buffer with at least 4 bytes. -/
def readLE4 : List Nat → Nat
  | b0 :: b1 :: b2 :: b3 :: _ => b0 + b1 * 256 + b2 * 256 ^ 2 + b3 * 256 ^ 3
  | _ => 0

/-- `sendMessage` : length prefix followed by the payload bytes. -/
def encodeFrame (payload : List Nat) : List Nat := toLE4 payload.length ++ payload

/-- The byte stream produced by sending a sequence of messages. -/
def encodeStream (payloads : List (List Nat)) : List Nat := (payloads.map encodeFrame).flatten

/-- The inner `while` of `readMessage` : extract complete frames from the
accumulated buffer, leaving any partial frame. -/
def extractFrames (buf : List Nat) : List (List Nat) × List Nat :=
  if _h : 4 ≤ buf.length then
    let msgLen := readLE4 buf
    if _h2 : 4 + msgLen ≤ buf.length then
      let r := extractFrames (buf.drop (4 + msgLen))
      (((buf.drop 4).take msgLen) :: r.1, r.2)
    else ([], buf)
  else ([], buf)
termination_by buf.length
decreasing_by simp [List.length_drop]; omega

/-- The `stdin.on('readable')` loop over a sequence of received chunks:
each chunk is appended to the buffer and complete frames are extracted. -/
def feedChunks : List Nat → List (List Nat) → List (List Nat) × List Nat
  | buf, [] => ([], buf)
  | buf, c :: cs =>
    let r := extractFrames (buf ++ c)
    let rest := feedChunks r.2 cs
    (r.1 ++ rest.1, rest.2)

/-! ### Generic lemmas about the string primitives -/

lemma charsStartWith_eq_true_iff : ∀ (p s : List Char), charsStartWith p s = true ↔ ∃ t, s = p ++ t := by
  intro p
  induction p with
  | nil => intro s; simp [charsStartWith]
  | cons a ps ih =>
    intro s
    cases s with
    | nil => simp [charsStartWith]
    | cons b t =>
      simp only [charsStartWith, Bool.and_eq_true, decide_eq_true_eq, ih, List.cons_append,
        List.cons.injEq]
      constructor
      · rintro ⟨rfl, u, rfl⟩; exact ⟨u, rfl, rfl⟩
      · rintro ⟨u, rfl, rfl⟩; exact ⟨rfl, u, rfl⟩

lemma jsStartsWith_iff (s p : String) : jsStartsWith s p = true ↔ ∃ t, s.data = p.data ++ t := by
  simp [jsStartsWith, charsStartWith_eq_true_iff]

/-- Two line markers that disagree at some position within their common
length cannot both be prefixes of the same line. -/
lemma sw_excl {l : String} (p q : String)
    (hpq : ∀ t u : List Char, p.data ++ t = q.data ++ u → False)
    (h : jsStartsWith l p = true) : jsStartsWith l q = false := by
  rw [jsStartsWith_iff] at h
  obtain ⟨t, ht⟩ := h
  rw [← Bool.not_eq_true, jsStartsWith_iff]
  rintro ⟨u, hu⟩
  exact hpq t u (ht.symm.trans hu)

lemma sw_h1_not_h2 {l : String} (h : jsStartsWith l "# " = true) :
    jsStartsWith l "## " = false :=
  sw_excl "# " "## " (fun t u h => by
    rw [show "# ".data = ['#', ' '] from rfl, show "## ".data = ['#', '#', ' '] from rfl] at h
    simp at h) h

lemma sw_h1_not_h3 {l : String} (h : jsStartsWith l "# " = true) :
    jsStartsWith l "### " = false :=
  sw_excl "# " "### " (fun t u h => by
    rw [show "# ".data = ['#', ' '] from rfl,
        show "### ".data = ['#', '#', '#', ' '] from rfl] at h
    simp at h) h

lemma sw_h1_not_bq {l : String} (h : jsStartsWith l "# " = true) :
    jsStartsWith l "> " = false :=
  sw_excl "# " "> " (fun t u h => by
    rw [show "# ".data = ['#', ' '] from rfl, show "> ".data = ['>', ' '] from rfl] at h
    simp at h) h

lemma sw_bq_not_h1 {l : String} (h : jsStartsWith l "> " = true) :
    jsStartsWith l "# " = false :=
  sw_excl "> " "# " (fun t u h => by
    rw [show "# ".data = ['#', ' '] from rfl, show "> ".data = ['>', ' '] from rfl] at h
    simp at h) h

lemma sw_bq_not_h2 {l : String} (h : jsStartsWith l "> " = true) :
    jsStartsWith l "## " = false :=
  sw_excl "> " "## " (fun t u h => by
    rw [show "## ".data = ['#', '#', ' '] from rfl, show "> ".data = ['>', ' '] from rfl] at h
    simp at h) h

lemma sw_bq_not_h3 {l : String} (h : jsStartsWith l "> " = true) :
    jsStartsWith l "### " = false :=
  sw_excl "> " "### " (fun t u h => by
    rw [show "### ".data = ['#', '#', '#', ' '] from rfl,
        show "> ".data = ['>', ' '] from rfl] at h
    simp at h) h

lemma sw_h2_not_h1 {l : String} (h : jsStartsWith l "## " = true) :
    jsStartsWith l "# " = false :=
  sw_excl "## " "# " (fun t u h => by
    rw [show "# ".data = ['#', ' '] from rfl, show "## ".data = ['#', '#', ' '] from rfl] at h
    simp at h) h

lemma sw_h2_not_bq {l : String} (h : jsStartsWith l "## " = true) :
    jsStartsWith l "> " = false :=
  sw_excl "## " "> " (fun t u h => by
    rw [show "## ".data = ['#', '#', ' '] from rfl, show "> ".data = ['>', ' '] from rfl] at h
    simp at h) h

lemma sw_h3_not_h1 {l : String} (h : jsStartsWith l "### " = true) :
    jsStartsWith l "# " = false :=
  sw_excl "### " "# " (fun t u h => by
    rw [show "# ".data = ['#', ' '] from rfl,
        show "### ".data = ['#', '#', '#', ' '] from rfl] at h
    simp at h) h

lemma sw_h3_not_h2 {l : String} (h : jsStartsWith l "### " = true) :
    jsStartsWith l "## " = false :=
  sw_excl "### " "## " (fun t u h => by
    rw [show "## ".data = ['#', '#', ' '] from rfl,
        show "### ".data = ['#', '#', '#', ' '] from rfl] at h
    simp at h) h

lemma sw_h3_not_bq {l : String} (h : jsStartsWith l "### " = true) :
    jsStartsWith l "> " = false :=
  sw_excl "### " "> " (fun t u h => by
    rw [show "### ".data = ['#', '#', '#', ' '] from rfl,
        show "> ".data = ['>', ' '] from rfl] at h
    simp at h) h

/-- Action body-line parsing never changes the action's name. -/
lemma parseActionBodyLine_name (a : Action) (line : String) :
    (parseActionBodyLine a line).name = a.name := by
  unfold parseActionBodyLine
  dsimp only
  split_ifs <;> try rfl
  cases parseParamLine (jsTrim line) <;> rfl

/-! ### C1 — actions emitted by the parser

Specification-side scan, written from the amended claim: a level-3 heading
inside the `actions` section opens an action named by its trimmed heading
text; the action is emitted when the next level-3 heading in the section
starts, or at end of input; a level-2 heading discards the in-progress
action instead of emitting it. -/

def declaredActionNamesGo : Bool → Option String → List String → List String
  | _, pending, [] => pending.toList
  | inA, pending, l :: ls =>
    if jsStartsWith l "## " then
      declaredActionNamesGo (decide (jsToLower (jsTrim (jsDrop l 3)) = "actions")) none ls
    else if jsStartsWith l "### " ∧ inA then
      pending.toList ++ declaredActionNamesGo inA (some (jsTrim (jsDrop l 4))) ls
    else
      declaredActionNamesGo inA pending ls

/-- Names of the actions the amended C1 claim predicts, in order. -/
def declaredActionNames (markdown : String) : List String :=
  declaredActionNamesGo false none (splitLines markdown)

lemma actions_names_aux : ∀ (ls : List String) (st : ParseState),
    (flushFinal (ls.foldl parseLine st)).actions.map Action.name =
      st.contract.actions.map Action.name ++
        declaredActionNamesGo st.inActionsSection (st.currentAction.map Action.name) ls := by
  intro ls
  induction ls with
  | nil =>
    intro st
    cases hca : st.currentAction with
    | none => simp [flushFinal, hca, declaredActionNamesGo]
    | some a => simp [flushFinal, hca, declaredActionNamesGo]
  | cons l ls ih =>
    intro st
    rw [List.foldl_cons, ih]
    by_cases h1 : jsStartsWith l "# " = true ∧ st.contract.appName = ""
    · simp [parseLine, h1, declaredActionNamesGo, sw_h1_not_h2 h1.1, sw_h1_not_h3 h1.1]
    · by_cases h2 : jsStartsWith l "> " = true ∧ st.contract.description = ""
      · simp [parseLine, h1, h2, declaredActionNamesGo, sw_bq_not_h2 h2.1, sw_bq_not_h3 h2.1]
      · by_cases h3 : jsStartsWith l "## " = true
        · simp [parseLine, h1, h2, h3, declaredActionNamesGo]
        · by_cases h4 : jsStartsWith l "### " = true ∧ st.inActionsSection = true
          · cases hca : st.currentAction with
            | none => simp [parseLine, h1, h2, h3, h4, hca, declaredActionNamesGo]
            | some a => simp [parseLine, h1, h2, h3, h4, hca, declaredActionNamesGo]
          · cases hca : st.currentAction with
            | none =>
              by_cases h6 : st.«section» = some "auth"
              · simp [parseLine, h1, h2, h3, h4, hca, h6, declaredActionNamesGo]
              · simp [parseLine, h1, h2, h3, h4, hca, h6, declaredActionNamesGo]
            | some a =>
              simp [parseLine, h1, h2, h3, h4, hca, declaredActionNamesGo,
                parseActionBodyLine_name]

/-- Claim C1 (amended): for every manifest text, the parsed contract's
`actions` list consists, in declaration order, of exactly the actions
opened by a level-3 heading inside the `actions` section that are
terminated by the next level-3 heading of that section or by end of input,
named by the trimmed heading text; an in-progress action followed by a
level-2 heading is discarded, not flushed. -/
theorem parseAgentMd_action_names (markdown : String) :
    (parseAgentMd markdown).actions.map Action.name = declaredActionNames markdown := by
  rw [parseAgentMd, parseLinesList, declaredActionNames, actions_names_aux]
  rfl

/-- Claim C1, counterexample to the claim as stated: in
`"## Actions\n### foo\n## Auth"` the action `foo` is opened by a level-3
heading inside the `actions` section, and a level-2 heading line is
encountered while it is in progress; the claim says it is flushed into
`actions`, but the parser produces no action at all. -/
theorem parseAgentMd_h2_discards_action :
    (parseAgentMd "## Actions\n### foo\n## Auth").actions = [] := by decide

/-! ### C3 — appName and description capture -/

/-- Specification-side description of `appName` (from the amended claim):
the trimmed text of the first level-1 heading line whose trimmed text is
nonempty; `""` when there is none.  (A heading whose text trims to the
empty string leaves the slot empty, so a later heading can still fill
it.) -/
def firstH1Text : List String → String
  | [] => ""
  | l :: ls =>
    if jsStartsWith l "# " then
      if jsTrim (jsDrop l 2) = "" then firstH1Text ls else jsTrim (jsDrop l 2)
    else firstH1Text ls

/-- Specification-side description of `description` (from the amended
claim): the trimmed text of the first blockquote line whose trimmed text is
nonempty, regardless of any section headings seen before it. -/
def firstBlockquoteText : List String → String
  | [] => ""
  | l :: ls =>
    if jsStartsWith l "> " then
      if jsTrim (jsDrop l 2) = "" then firstBlockquoteText ls else jsTrim (jsDrop l 2)
    else firstBlockquoteText ls

lemma flushFinal_appName (st : ParseState) : (flushFinal st).appName = st.contract.appName := by
  cases h : st.currentAction <;> simp [flushFinal, h]

lemma flushFinal_description (st : ParseState) :
    (flushFinal st).description = st.contract.description := by
  cases h : st.currentAction <;> simp [flushFinal, h]

lemma appName_aux : ∀ (ls : List String) (st : ParseState),
    (ls.foldl parseLine st).contract.appName =
      if st.contract.appName = "" then firstH1Text ls else st.contract.appName := by
  intro ls
  induction ls with
  | nil => intro st; by_cases h : st.contract.appName = "" <;> simp [firstH1Text, h]
  | cons l ls ih =>
    intro st
    rw [List.foldl_cons, ih]
    by_cases h1 : jsStartsWith l "# " = true ∧ st.contract.appName = ""
    · by_cases ht : jsTrim (jsDrop l 2) = "" <;>
        simp [parseLine, h1, firstH1Text, h1.1, h1.2, ht]
    · by_cases h2 : jsStartsWith l "> " = true ∧ st.contract.description = ""
      · simp [parseLine, h1, h2, firstH1Text, sw_bq_not_h1 h2.1]
      · by_cases h3 : jsStartsWith l "## " = true
        · simp [parseLine, h1, h2, h3, firstH1Text, sw_h2_not_h1 h3]
        · by_cases h4 : jsStartsWith l "### " = true ∧ st.inActionsSection = true
          · cases hca : st.currentAction <;>
              simp [parseLine, h1, h2, h3, h4, hca, firstH1Text, sw_h3_not_h1 h4.1]
          · have hskip : st.contract.appName = "" → jsStartsWith l "# " = false := by
              intro ha
              by_contra hc
              exact h1 ⟨by simpa using hc, ha⟩
            cases hca : st.currentAction with
            | some a =>
              by_cases ha : st.contract.appName = ""
              · simp [parseLine, h1, h2, h3, h4, hca, ha, firstH1Text, hskip ha]
              · simp [parseLine, h1, h2, h3, h4, hca, ha]
            | none =>
              by_cases h6 : st.«section» = some "auth" <;>
                by_cases ha : st.contract.appName = ""
              · simp [parseLine, h1, h2, h3, h4, hca, h6, ha, firstH1Text, hskip ha]
              · simp [parseLine, h1, h2, h3, h4, hca, h6, ha]
              · simp [parseLine, h1, h2, h3, h4, hca, h6, ha, firstH1Text, hskip ha]
              · simp [parseLine, h1, h2, h3, h4, hca, h6, ha]

lemma description_aux : ∀ (ls : List String) (st : ParseState),
    (ls.foldl parseLine st).contract.description =
      if st.contract.description = "" then firstBlockquoteText ls
      else st.contract.description := by
  intro ls
  induction ls with
  | nil => intro st; by_cases h : st.contract.description = "" <;> simp [firstBlockquoteText, h]
  | cons l ls ih =>
    intro st
    rw [List.foldl_cons, ih]
    by_cases h1 : jsStartsWith l "# " = true ∧ st.contract.appName = ""
    · simp [parseLine, h1, firstBlockquoteText, sw_h1_not_bq h1.1]
    · by_cases h2 : jsStartsWith l "> " = true ∧ st.contract.description = ""
      · by_cases ht : jsTrim (jsDrop l 2) = "" <;>
          simp [parseLine, h1, h2, firstBlockquoteText, h2.1, h2.2, ht]
      · by_cases h3 : jsStartsWith l "## " = true
        · simp [parseLine, h1, h2, h3, firstBlockquoteText, sw_h2_not_bq h3]
        · by_cases h4 : jsStartsWith l "### " = true ∧ st.inActionsSection = true
          · cases hca : st.currentAction <;>
              simp [parseLine, h1, h2, h3, h4, hca, firstBlockquoteText, sw_h3_not_bq h4.1]
          · have hskip : st.contract.description = "" → jsStartsWith l "> " = false := by
              intro hd
              by_contra hc
              exact h2 ⟨by simpa using hc, hd⟩
            cases hca : st.currentAction with
            | some a =>
              by_cases hd : st.contract.description = ""
              · simp [parseLine, h1, h2, h3, h4, hca, hd, firstBlockquoteText, hskip hd]
              · simp [parseLine, h1, h2, h3, h4, hca, hd]
            | none =>
              by_cases h6 : st.«section» = some "auth" <;>
                by_cases hd : st.contract.description = ""
              · simp [parseLine, h1, h2, h3, h4, hca, h6, hd, firstBlockquoteText, hskip hd]
              · simp [parseLine, h1, h2, h3, h4, hca, h6, hd]
              · simp [parseLine, h1, h2, h3, h4, hca, h6, hd, firstBlockquoteText, hskip hd]
              · simp [parseLine, h1, h2, h3, h4, hca, h6, hd]

/-- Claim C3 (amended): for every manifest text, `appName` is the trimmed
text of the first level-1 heading line with nonempty trimmed text, and
`description` is the trimmed text of the first blockquote line with
nonempty trimmed text — in both cases later heading/blockquote lines never
overwrite an already captured value; but a blockquote line sets
`description` wherever it occurs, even after `##` section headings have
been seen. -/
theorem parseAgentMd_first_capture (markdown : String) :
    (parseAgentMd markdown).appName = firstH1Text (splitLines markdown) ∧
      (parseAgentMd markdown).description = firstBlockquoteText (splitLines markdown) := by
  constructor
  · rw [parseAgentMd, parseLinesList, flushFinal_appName, appName_aux]
    rfl
  · rw [parseAgentMd, parseLinesList, flushFinal_description, description_aux]
    rfl

/-- Claim C3, counterexample to the claim as stated: in `"## Auth\n> hi"`
the blockquote line occurs after a `##` section heading has been seen, so
the claim says `description` stays empty; the parser sets it to `"hi"`. -/
theorem parseAgentMd_blockquote_after_section :
    (parseAgentMd "## Auth\n> hi").description = "hi" := by decide

/-! ### C5 — schema builder -/

lemma lookup_cons {α β : Type} [BEq α] [LawfulBEq α] [DecidableEq α] (a k : α) (v : β)
    (t : List (α × β)) :
    List.lookup a ((k, v) :: t) = if a = k then some v else List.lookup a t := by
  by_cases h : a = k
  · subst h; simp [List.lookup]
  · simp [List.lookup, h, beq_eq_false_iff_ne.mpr h]

lemma lookup_filter_ne_self {β : Type} : ∀ (t : List (Nat × β)) (i : Nat),
    List.lookup i (t.filter fun kv => kv.1 ≠ i) = none := by
  intro t i
  induction t with
  | nil => rfl
  | cons kv t ih =>
    obtain ⟨k, v⟩ := kv
    rw [List.filter_cons]
    by_cases hk : k = i
    · rw [if_neg (by simp [hk])]
      exact ih
    · rw [if_pos (by simp [hk]), lookup_cons, if_neg (Ne.symm hk)]
      exact ih

lemma lookup_filter_ne_other {β : Type} : ∀ (t : List (Nat × β)) (i j : Nat), j ≠ i →
    List.lookup j (t.filter fun kv => kv.1 ≠ i) = List.lookup j t := by
  intro t i j hj
  induction t with
  | nil => rfl
  | cons kv t ih =>
    obtain ⟨k, v⟩ := kv
    rw [List.filter_cons]
    by_cases hk : k = i
    · subst hk
      rw [if_neg (by simp), ih, lookup_cons, if_neg hj]
    · rw [if_pos (by simp [hk]), lookup_cons, lookup_cons]
      by_cases hjk : j = k
      · rw [if_pos hjk, if_pos hjk]
      · rw [if_neg hjk, if_neg hjk]
        exact ih

lemma objSet_lookup : ∀ (m : List (String × PropSchema)) (k : String) (v : PropSchema)
    (k' : String),
    List.lookup k' (objSet m k v) = if k' = k then some v else List.lookup k' m := by
  intro m k v
  induction m with
  | nil => intro k'; by_cases h : k' = k <;> simp [objSet, lookup_cons, h]
  | cons kv rest ih =>
    intro k'
    obtain ⟨k₀, v₀⟩ := kv
    by_cases h0 : k₀ = k
    · subst h0
      by_cases h : k' = k₀ <;> simp [objSet, lookup_cons, h]
    · by_cases h : k' = k
      · subst h
        simp [objSet, lookup_cons, h0, ih, Ne.symm h0]
      · by_cases h' : k' = k₀ <;> simp [objSet, lookup_cons, h0, ih, h, h']

lemma buildFold_required : ∀ (ps : List Param) (m : List (String × PropSchema))
    (r : List String),
    (ps.foldl buildSchemaStep (m, r)).2 =
      r ++ (ps.filter (fun p => p.required)).map (fun p => p.name) := by
  intro ps
  induction ps with
  | nil => intro m r; simp
  | cons p ps ih =>
    intro m r
    rw [List.foldl_cons]
    by_cases hreq : p.required = true <;>
      simp [buildSchemaStep, hreq, ih]

lemma buildFold_lookup : ∀ (ps : List Param) (m : List (String × PropSchema))
    (r : List String) (k : String),
    List.lookup k (ps.foldl buildSchemaStep (m, r)).1 =
      (match ps.reverse.find? (fun p => p.name == k) with
       | some p => some ⟨mapType p.«type», p.description⟩
       | none => List.lookup k m) := by
  intro ps
  induction ps with
  | nil => intro m r k; simp
  | cons p ps ih =>
    intro m r k
    rw [List.foldl_cons]
    have : (p :: ps).reverse = ps.reverse ++ [p] := by simp
    rw [this, List.find?_append]
    cases hfind : ps.reverse.find? (fun p => p.name == k) with
    | some q => simp [buildSchemaStep, ih, hfind]
    | none =>
      by_cases hk : p.name = k
      · simp [buildSchemaStep, ih, hfind, objSet_lookup, hk]
      · simp [buildSchemaStep, ih, hfind, objSet_lookup, hk, Ne.symm hk]

/-- Claim C5: `buildInputSchema` returns the empty object schema for an
action without params; otherwise the property map is keyed by param name
with later duplicates overwriting earlier ones (the effective entry for a
key is the last param with that name), each property carries `mapType` of
the declared type plus the param's description, and `required` lists the
names of the required params in declaration order; `mapType` maps
string→string, number/integer→number, boolean→boolean and anything
else→string; the `add_todo`/`title` round-trip example holds. -/
theorem buildInputSchema_spec :
    (∀ a : Action, a.params = [] → buildInputSchema a = ⟨"object", [], []⟩)
  ∧ (∀ a : Action, (buildInputSchema a).«type» = "object")
  ∧ (∀ a : Action, (buildInputSchema a).required =
      (a.params.filter (fun p => p.required)).map (fun p => p.name))
  ∧ (∀ (a : Action) (k : String), List.lookup k (buildInputSchema a).properties =
      (match a.params.reverse.find? (fun p => p.name == k) with
       | some p => some ⟨mapType p.«type», p.description⟩
       | none => none))
  ∧ (mapType "string" = "string" ∧ mapType "number" = "number" ∧ mapType "integer" = "number"
      ∧ mapType "boolean" = "boolean")
  ∧ (∀ t : String, t ≠ "string" → t ≠ "number" → t ≠ "integer" → t ≠ "boolean" →
      mapType t = "string")
  ∧ ((buildInputSchema ⟨"add_todo", "Creates a new todo item",
        [⟨"title", "string", true, "The text of the todo item"⟩], "", ""⟩).required = ["title"]
      ∧ List.lookup "title" (buildInputSchema ⟨"add_todo", "Creates a new todo item",
          [⟨"title", "string", true, "The text of the todo item"⟩], "", ""⟩).properties =
        some ⟨"string", "The text of the todo item"⟩) := by
  refine ⟨fun a h => by simp [buildInputSchema, h], fun a => ?_, fun a => ?_, fun a k => ?_,
    ⟨rfl, rfl, rfl, rfl⟩, fun t h1 h2 h3 h4 => by simp [mapType, h1, h2, h3, h4], by decide⟩
  · by_cases h : a.params = [] <;> simp [buildInputSchema, h]
  · by_cases h : a.params = []
    · simp [buildInputSchema, h]
    · simp only [buildInputSchema, if_neg h]
      exact buildFold_required a.params [] []
  · by_cases h : a.params = []
    · simp [buildInputSchema, h]
    · simp only [buildInputSchema, if_neg h]
      rw [buildFold_lookup]
      rfl

/-- Witness for C5 at concrete inputs: an action without params gets the
empty schema, and an unrecognized type tag falls back to string. -/
theorem buildInputSchema_spec_witness :
    buildInputSchema ⟨"list_todos", "", [], "", ""⟩ = ⟨"object", [], []⟩
      ∧ mapType "array" = "string" :=
  ⟨buildInputSchema_spec.1 ⟨"list_todos", "", [], "", ""⟩ rfl,
   buildInputSchema_spec.2.2.2.2.2.1 "array" (by decide) (by decide) (by decide) (by decide)⟩

/-! ### C4 — action invoker -/

/-- Claim C4 (amended): the invoker returns `{ok:false, error:…}` without
throwing when the page exposes no `window.__agent` registry, when the named
action is absent or not callable (the error names the action), and when the
callable throws (the error is the exception message); on success it returns
exactly the callable's return value provided that value is not null — a
callable resolving null (or undefined) is replaced by the
`Script execution failed` fallback of the `results[0]?.result ?? …`
normalization. -/
theorem callAgentAction_spec :
    (∀ (name : String) (params : JVal), callAgentAction none name params =
      .jobj [("ok", .jbool false),
             ("error", .jstr "window.__agent is not available on this page")])
  ∧ (∀ (reg : Registry) (name : String) (params : JVal),
      (List.lookup name reg = none ∨ ∃ v, List.lookup name reg = some (.nonFn v)) →
      callAgentAction (some reg) name params =
        .jobj [("ok", .jbool false),
               ("error", .jstr ("Action \"" ++ name ++ "\" not found on window.__agent"))])
  ∧ (∀ (reg : Registry) (name : String) (params : JVal) (f : JVal → InvokeOutcome)
      (msg : String), List.lookup name reg = some (.fn f) → f params = .throws msg →
      callAgentAction (some reg) name params =
        .jobj [("ok", .jbool false), ("error", .jstr msg)])
  ∧ (∀ (reg : Registry) (name : String) (params : JVal) (f : JVal → InvokeOutcome) (v : JVal),
      List.lookup name reg = some (.fn f) → f params = .returns v → v ≠ .jnull →
      callAgentAction (some reg) name params = v)
  ∧ (∀ (reg : Registry) (name : String) (params : JVal) (f : JVal → InvokeOutcome),
      List.lookup name reg = some (.fn f) → f params = .returns .jnull →
      callAgentAction (some reg) name params =
        .jobj [("ok", .jbool false), ("error", .jstr "Script execution failed")]) := by
  refine ⟨fun name params => rfl, fun reg name params h => ?_,
    fun reg name params f msg hf hcall => ?_, fun reg name params f v hf hcall hv => ?_,
    fun reg name params f hf hcall => ?_⟩
  · rcases h with h | ⟨v, h⟩ <;> simp [callAgentAction, agentPageFunc, h]
  · simp [callAgentAction, agentPageFunc, hf, hcall]
  · have hpf : agentPageFunc (some reg) name params = v := by
      simp [agentPageFunc, hf, hcall]
    cases v with
    | jnull => exact absurd rfl hv
    | jbool b => simp [callAgentAction, hpf]
    | jnum n => simp [callAgentAction, hpf]
    | jstr s => simp [callAgentAction, hpf]
    | jarr xs => simp [callAgentAction, hpf]
    | jobj fs => simp [callAgentAction, hpf]
  · simp [callAgentAction, agentPageFunc, hf, hcall]

/-- Claim C4, counterexample to the claim as stated: a callable that
resolves null is not passed through "exactly" — the
`results[0]?.result ?? …` normalization replaces the null result with the
script-failure error object. -/
theorem callAgentAction_null_not_passthrough :
    callAgentAction (some [("give_null", .fn fun _ => .returns .jnull)]) "give_null" (.jobj [])
      = .jobj [("ok", .jbool false), ("error", .jstr "Script execution failed")] := rfl

/-- Witness for C4 at concrete inputs: a registry without the requested
action produces the name-bearing error, a throwing action is converted to a
payload error, and an object-resolving action is passed through exactly. -/
theorem callAgentAction_spec_witness :
    callAgentAction (some []) "zap" .jnull =
      .jobj [("ok", .jbool false), ("error", .jstr "Action \"zap\" not found on window.__agent")]
    ∧ callAgentAction (some [("boom", .fn fun _ => .throws "kaput")]) "boom" .jnull =
      .jobj [("ok", .jbool false), ("error", .jstr "kaput")]
    ∧ callAgentAction (some [("probe", .fn fun _ => .returns (.jobj [("ok", .jbool true)]))])
        "probe" .jnull = .jobj [("ok", .jbool true)] :=
  ⟨callAgentAction_spec.2.1 [] "zap" .jnull (Or.inl rfl),
   callAgentAction_spec.2.2.1 [("boom", .fn fun _ => .throws "kaput")] "boom" .jnull
     (fun _ => .throws "kaput") "kaput" rfl rfl,
   callAgentAction_spec.2.2.2.1 [("probe", .fn fun _ => .returns (.jobj [("ok", .jbool true)]))]
     "probe" .jnull (fun _ => .returns (.jobj [("ok", .jbool true)]))
     (.jobj [("ok", .jbool true)]) rfl rfl (by simp)⟩

/-! ### C2 — tools/call result payload -/

/-- Claim C2 (amended): when an active tab exists, the `tools/call` result
is `{content:[{type:"text", text: JSON.stringify(result)}], isError: b}`
with `isError` present and `b = (result.ok === false)`; but when no active
tab exists, the returned payload wraps `{ok:false, error:"No active tab"}`
and carries no `isError` field at all. -/
theorem handleToolCall_payload_spec :
    (∀ (cache : List (String × Contract)) (t : Tab) (name : String) (args : Option JVal),
      handleToolCall cache (some t) name args =
        ⟨[⟨"text", jsonStringify
            (callAgentAction t.registry (stripAgentmd name) (args.getD (.jobj [])))⟩],
         some (jEqFalse (jLookup
            (callAgentAction t.registry (stripAgentmd name) (args.getD (.jobj []))) "ok"))⟩)
  ∧ (∀ o : Option JVal, jEqFalse o = true ↔ o = some (.jbool false))
  ∧ (∀ (cache : List (String × Contract)) (name : String) (args : Option JVal),
      handleToolCall cache none name args =
        ⟨[⟨"text", jsonStringify (.jobj [("ok", .jbool false),
                                         ("error", .jstr "No active tab")])⟩],
         none⟩) := by
  refine ⟨fun cache t name args => rfl, fun o => ?_, fun cache name args => rfl⟩
  cases o with
  | none => simp [jEqFalse]
  | some v =>
    cases v with
    | jbool b => cases b <;> simp [jEqFalse]
    | jnull => simp [jEqFalse]
    | jnum n => simp [jEqFalse]
    | jstr s => simp [jEqFalse]
    | jarr xs => simp [jEqFalse]
    | jobj fs => simp [jEqFalse]

/-- Claim C2, counterexample to the claim as stated: with no active tab the
dispatcher returns a payload whose `isError` field is absent, while the
claim requires `isError` to be present (and `true`, since the wrapped
result is `{ok:false, error:"No active tab"}`). -/
theorem handleToolCall_no_tab_isError :
    (handleToolCall [] none "agentmd_add_todo" none).isError = none := rfl

/-! ### C10 — tool-name stripping and contract independence -/

lemma charsStartWith_self_append : ∀ (p t : List Char), charsStartWith p (p ++ t) = true := by
  intro p t
  induction p with
  | nil => rfl
  | cons a ps ih => simp [charsStartWith, ih]

lemma string_mk_data (s : String) : String.mk s.data = s := rfl

/-- Claim C10: `tools/call` derives the action name by removing one leading
`agentmd_` from the tool name (an unprefixed name is forwarded unchanged,
a doubly prefixed name loses only one copy), never consults the contract
cache, and invokes the stripped name directly against the page registry —
so an action present on `window.__agent` but absent from any parsed
contract is still executed. -/
theorem handleToolCall_contract_untouched :
    (∀ (cache cache' : List (String × Contract)) (tab : Option Tab) (name : String)
      (args : Option JVal),
      handleToolCall cache tab name args = handleToolCall cache' tab name args)
  ∧ (∀ s : String, stripAgentmd ("agentmd_" ++ s) = s)
  ∧ (∀ name : String, jsStartsWith name "agentmd_" = false → stripAgentmd name = name)
  ∧ stripAgentmd "agentmd_agentmd_list" = "agentmd_list"
  ∧ (∀ (cache : List (String × Contract)) (t : Tab) (name : String) (args : Option JVal),
      (handleToolCall cache (some t) name args).content =
        [⟨"text", jsonStringify
            (callAgentAction t.registry (stripAgentmd name) (args.getD (.jobj [])))⟩])
  ∧ (handleToolCall [("https://example.com", parseAgentMd "# A\n## Actions\n### add_todo\n- params: none")]
      (some ⟨some [("zap", .fn fun _ => .returns (.jobj [("ok", .jbool true)]))]⟩)
      "agentmd_zap" none =
      ⟨[⟨"text", jsonStringify (.jobj [("ok", .jbool true)])⟩], some false⟩) := by
  refine ⟨fun cache cache' tab name args => by cases tab <;> rfl,
    fun s => ?_, fun name h => by simp [stripAgentmd, h], by decide,
    fun cache t name args => rfl, ?_⟩
  · have h : jsStartsWith ("agentmd_" ++ s) "agentmd_" = true := by
      rw [jsStartsWith, String.data_append]
      exact charsStartWith_self_append _ _
    rw [stripAgentmd, if_pos (by simpa using h), jsDrop, String.data_append,
      show "agentmd_".data = ['a', 'g', 'e', 'n', 't', 'm', 'd', '_'] from rfl,
      show (8 : Nat) = (['a', 'g', 'e', 'n', 't', 'm', 'd', '_'] : List Char).length from rfl,
      List.drop_left, string_mk_data]
  · rfl

/-- Witness for C10 at a concrete input: a tool name without the
`agentmd_` prefix is forwarded unchanged. -/
theorem handleToolCall_contract_untouched_witness :
    stripAgentmd "mytool" = "mytool" :=
  handleToolCall_contract_untouched.2.2.1 "mytool" (by decide)

/-! ### C6 — native-host reconnect -/

lemma runConn_delays_all_2000 : ∀ (es : List ConnEvent) (st : NativeConnState),
    (∀ d ∈ st.scheduledReconnectDelays, d = 2000) →
    ∀ d ∈ (runConn st es).scheduledReconnectDelays, d = 2000 := by
  intro es
  induction es with
  | nil => intro st h; exact h
  | cons e es ih =>
    intro st h
    refine ih (connStep st e) ?_
    cases e with
    | attemptOk => exact h
    | attemptThrows msg => exact h
    | disconnect =>
      by_cases hc : st.connected = true
      · intro d hd
        simp only [connStep, hc, if_pos] at hd
        rcases List.mem_append.mp hd with hd | hd
        · exact h d hd
        · simpa using hd
      · simpa [connStep, hc] using h

/-- Claim C6 (amended): a disconnect event on an established connection
schedules exactly one reconnect attempt with the fixed 2000 ms delay (so
over any event sequence every scheduled delay is 2000 — no backoff growth
and no retry cap); but a connection attempt that fails with a synchronous
exception schedules nothing, so not every disconnected state leads to a
reconnect. -/
theorem connectNativeHost_reconnect :
    (∀ st : NativeConnState, st.connected = true →
      (connStep st .disconnect).scheduledReconnectDelays =
        st.scheduledReconnectDelays ++ [2000] ∧ (connStep st .disconnect).connected = false)
  ∧ (∀ es : List ConnEvent, ∀ d ∈ (runConn ⟨false, []⟩ es).scheduledReconnectDelays, d = 2000) := by
  constructor
  · intro st h
    constructor <;> simp [connStep, h]
  · intro es
    exact runConn_delays_all_2000 es ⟨false, []⟩ (by simp)

/-- Witness for C6 at a concrete state: a disconnect of an established
connection schedules one reconnect at 2000 ms. -/
theorem connectNativeHost_reconnect_witness :
    (connStep ⟨true, []⟩ .disconnect).scheduledReconnectDelays = [2000] :=
  ((connectNativeHost_reconnect.1 ⟨true, []⟩ rfl).1).trans rfl

/-- Claim C6, counterexample to the claim as stated: a synchronous failure
of the very first connection attempt (the `catch` branch of
`connectNativeHost`) leaves the state disconnected with no reconnect
scheduled, contradicting "exactly one reconnect attempt is scheduled …
including the initial connection failure". -/
theorem connectNativeHost_throw_no_reconnect :
    (connStep ⟨false, []⟩ (.attemptThrows "Native host not available")).scheduledReconnectDelays
      = [] ∧
    (connStep ⟨false, []⟩ (.attemptThrows "Native host not available")).connected = false :=
  ⟨rfl, rfl⟩

/-! ### C7 — contract-cache failure and invalidation behavior -/

/-- Claim C7: a failed fetch (network error or non-success status) on a
cache miss stores nothing and yields no contract; an absent contract makes
`tools/list` return an empty tool list rather than an error; and after
`INVALIDATE_CACHE` clears the cache, the next resolution for a previously
cached origin is served by a fresh fetch of the current manifest, not by
the stale cached contract. -/
theorem fetchAndParseContract_spec :
    (∀ (fetch : String → FetchOutcome) (cache : List (String × Contract)) (origin : String),
      List.lookup origin cache = none → fetch origin = .networkError →
      fetchAndParseContract fetch cache origin = (none, cache))
  ∧ (∀ (fetch : String → FetchOutcome) (cache : List (String × Contract)) (origin : String),
      List.lookup origin cache = none → fetch origin = .httpError →
      fetchAndParseContract fetch cache origin = (none, cache))
  ∧ (∀ (fetch : String → FetchOutcome) (cache : List (String × Contract)) (origin : String),
      (fetchAndParseContract fetch cache origin).1 = none →
      (handleToolsList fetch cache (some origin)).1 = [])
  ∧ (∀ (fetch : String → FetchOutcome) (cache : List (String × Contract)) (origin : String)
      (c : Contract) (text : String),
      List.lookup origin cache = some c → fetch origin = .success text →
      fetchAndParseContract fetch (invalidateCache cache) origin =
        (some (parseAgentMd text), [(origin, parseAgentMd text)])) := by
  refine ⟨fun fetch cache origin hmiss hf => by simp [fetchAndParseContract, hmiss, hf],
    fun fetch cache origin hmiss hf => by simp [fetchAndParseContract, hmiss, hf],
    fun fetch cache origin habs => ?_,
    fun fetch cache origin c text _hcached hf => by
      simp [fetchAndParseContract, invalidateCache, List.lookup, hf]⟩
  simp only [handleToolsList]
  cases hres : fetchAndParseContract fetch cache origin with
  | mk contract cache' =>
    cases contract with
    | none => simp
    | some c => rw [hres] at habs; simp at habs

/-- Witness for C7 at concrete inputs: a network error on a miss leaves the
cache empty and yields no contract, and after invalidation a previously
cached origin is re-fetched and re-parsed. -/
theorem fetchAndParseContract_spec_witness :
    fetchAndParseContract (fun _ => .networkError) [] "https://a.com" = (none, [])
    ∧ fetchAndParseContract (fun _ => .success "# Fresh")
        (invalidateCache [("https://a.com", parseAgentMd "# Stale")]) "https://a.com" =
        (some (parseAgentMd "# Fresh"), [("https://a.com", parseAgentMd "# Fresh")]) :=
  ⟨fetchAndParseContract_spec.1 (fun _ => .networkError) [] "https://a.com" rfl rfl,
   fetchAndParseContract_spec.2.2.2 (fun _ => .success "# Fresh")
     [("https://a.com", parseAgentMd "# Stale")] "https://a.com"
     (parseAgentMd "# Stale") "# Fresh" (by rfl) rfl⟩

/-! ### C8 — MCP client request bookkeeping -/

/-- Claim C8: request ids are strictly increasing within a session; a
timeout firing for a still-pending request rejects it with the timeout
error and removes exactly that entry; a response whose id matches no
pending entry is dropped with the state unchanged; and a response for one
of two distinct pending ids settles exactly that request with that
response, leaving the other pending entry intact. -/
theorem mcpClient_pending_spec :
    (∀ (st : ClientState) (m₁ m₂ : String),
      (sendRequest st m₁).1 < (sendRequest (sendRequest st m₁).2 m₂).1)
  ∧ (∀ (st : ClientState) (i : Nat) (method : String) (e : PendingEntry),
      List.lookup i st.pending = some e →
      (timeoutFire st i method).2 = some (i, .rejected ("Request timeout: " ++ method))
      ∧ List.lookup i (timeoutFire st i method).1.pending = none
      ∧ ∀ j, j ≠ i →
          List.lookup j (timeoutFire st i method).1.pending = List.lookup j st.pending)
  ∧ (∀ (st : ClientState) (msg : RpcMsg) (i : Nat), msg.id = some i →
      List.lookup i st.pending = none → handleLine st msg = (st, none))
  ∧ (∀ (st : ClientState) (msg : RpcMsg) (i₁ i₂ : Nat) (e₁ e₂ : PendingEntry),
      i₁ ≠ i₂ → List.lookup i₁ st.pending = some e₁ → List.lookup i₂ st.pending = some e₂ →
      msg.id = some i₁ → msg.error = none →
      (handleLine st msg).2 = some (i₁, .resolved msg.result)
      ∧ List.lookup i₂ (handleLine st msg).1.pending = some e₂) := by
  refine ⟨fun st m₁ m₂ => by simp [sendRequest], fun st i method e hpend => ?_,
    fun st msg i hid hmiss => by simp [handleLine, hid, hmiss],
    fun st msg i₁ i₂ e₁ e₂ hne h₁ h₂ hid herr => ?_⟩
  · refine ⟨by simp [timeoutFire, hpend], ?_, ?_⟩
    · simp only [timeoutFire, hpend]
      exact lookup_filter_ne_self st.pending i
    · intro j hj
      simp only [timeoutFire, hpend]
      exact lookup_filter_ne_other st.pending i j hj
  · refine ⟨by simp [handleLine, hid, h₁, herr], ?_⟩
    simp only [handleLine, hid, h₁]
    rw [lookup_filter_ne_other st.pending i₁ i₂ (Ne.symm hne)]
    exact h₂

/-- Witness for C8 at concrete states: a timeout fires on the only pending
request, an unknown-id response is dropped, and a response for id 1 leaves
id 2 pending. -/
theorem mcpClient_pending_spec_witness :
    (timeoutFire ⟨3, [(1, ⟨"tools/list"⟩)]⟩ 1 "tools/list").2 =
      some (1, .rejected "Request timeout: tools/list")
    ∧ handleLine ⟨3, [(1, ⟨"tools/list"⟩)]⟩ ⟨some 2, none, .jnull⟩ =
      (⟨3, [(1, ⟨"tools/list"⟩)]⟩, none)
    ∧ (handleLine ⟨3, [(1, ⟨"a"⟩), (2, ⟨"b"⟩)]⟩ ⟨some 1, none, .jbool true⟩).2 =
      some (1, .resolved (.jbool true))
    ∧ List.lookup 2 (handleLine ⟨3, [(1, ⟨"a"⟩), (2, ⟨"b"⟩)]⟩
        ⟨some 1, none, .jbool true⟩).1.pending = some ⟨"b"⟩ := by
  refine ⟨(mcpClient_pending_spec.2.1 ⟨3, [(1, ⟨"tools/list"⟩)]⟩ 1 "tools/list"
      ⟨"tools/list"⟩ rfl).1,
    mcpClient_pending_spec.2.2.1 ⟨3, [(1, ⟨"tools/list"⟩)]⟩ ⟨some 2, none, .jnull⟩ 2 rfl rfl,
    (mcpClient_pending_spec.2.2.2 ⟨3, [(1, ⟨"a"⟩), (2, ⟨"b"⟩)]⟩ ⟨some 1, none, .jbool true⟩
      1 2 ⟨"a"⟩ ⟨"b"⟩ (by decide) rfl rfl rfl rfl).1,
    (mcpClient_pending_spec.2.2.2 ⟨3, [(1, ⟨"a"⟩), (2, ⟨"b"⟩)]⟩ ⟨some 1, none, .jbool true⟩
      1 2 ⟨"a"⟩ ⟨"b"⟩ (by decide) rfl rfl rfl rfl).2⟩

/-! ### C9 — length-prefixed framing round-trip -/

lemma readLE4_toLE4_append (n : Nat) (rest : List Nat) (h : n < 2 ^ 32) :
    readLE4 (toLE4 n ++ rest) = n := by
  show n % 256 + n / 256 % 256 * 256 + n / 256 ^ 2 % 256 * 256 ^ 2
      + n / 256 ^ 3 % 256 * 256 ^ 3 = n
  omega

lemma readLE4_append (X Y : List Nat) (h : 4 ≤ X.length) : readLE4 (X ++ Y) = readLE4 X := by
  match X, h with
  | a :: b :: c :: d :: t, _ => rfl

lemma extractFrames_stuck (buf : List Nat)
    (h : buf.length < 4 ∨ buf.length < 4 + readLE4 buf) :
    extractFrames buf = ([], buf) := by
  rw [extractFrames]
  by_cases h1 : 4 ≤ buf.length
  · rcases h with h | h
    · omega
    · rw [dif_pos h1, dif_neg (by omega)]
  · rw [dif_neg h1]

lemma extractFrames_nil : extractFrames [] = ([], []) :=
  extractFrames_stuck [] (Or.inl (by simp))

lemma extractFrames_step (buf : List Nat) (h : 4 ≤ buf.length)
    (h2 : 4 + readLE4 buf ≤ buf.length) :
    extractFrames buf =
      ((buf.drop 4).take (readLE4 buf) :: (extractFrames (buf.drop (4 + readLE4 buf))).1,
       (extractFrames (buf.drop (4 + readLE4 buf))).2) := by
  rw [extractFrames]
  rw [dif_pos h, dif_pos h2]

lemma extractFrames_encodeFrame (p s : List Nat) (h : p.length < 2 ^ 32) :
    extractFrames (encodeFrame p ++ s) = (p :: (extractFrames s).1, (extractFrames s).2) := by
  have hread : readLE4 (encodeFrame p ++ s) = p.length := by
    rw [encodeFrame, List.append_assoc, readLE4_toLE4_append _ _ h]
  have hlen : (encodeFrame p ++ s).length = 4 + p.length + s.length := by
    simp [encodeFrame, toLE4]
    omega
  have hdrop4 : (encodeFrame p ++ s).drop 4 = p ++ s := by
    rw [encodeFrame, List.append_assoc,
      show (4 : Nat) = (toLE4 p.length).length from rfl, List.drop_left]
  have hdroprest : (encodeFrame p ++ s).drop (4 + p.length) = s := by
    rw [encodeFrame,
      show (4 + p.length : Nat) = (toLE4 p.length ++ p).length from by simp [toLE4]; omega,
      List.drop_left]
  rw [extractFrames_step _ (by omega) (by rw [hread]; omega), hread, hdrop4, hdroprest,
    List.take_left]

lemma extractFrames_encodeStream : ∀ (ps : List (List Nat)),
    (∀ p ∈ ps, p.length < 2 ^ 32) → extractFrames (encodeStream ps) = (ps, []) := by
  intro ps
  induction ps with
  | nil => intro _; simpa [encodeStream] using extractFrames_nil
  | cons p ps ih =>
    intro h
    have hstream : encodeStream (p :: ps) = encodeFrame p ++ encodeStream ps := by
      simp [encodeStream]
    rw [hstream, extractFrames_encodeFrame _ _ (h p (by simp)),
      ih (fun q hq => h q (by simp [hq]))]

lemma extractFrames_saturated_aux : ∀ (n : Nat) (X : List Nat), X.length ≤ n →
    extractFrames (extractFrames X).2 = ([], (extractFrames X).2) := by
  intro n
  induction n with
  | zero =>
    intro X hX
    have : X = [] := List.length_eq_zero.mp (Nat.le_zero.mp hX)
    subst this
    simp [extractFrames_nil]
  | succ n ih =>
    intro X hX
    by_cases h1 : 4 ≤ X.length
    · by_cases h2 : 4 + readLE4 X ≤ X.length
      · rw [extractFrames_step X h1 h2]
        exact ih (X.drop (4 + readLE4 X)) (by simp [List.length_drop]; omega)
      · rw [extractFrames_stuck X (Or.inr (by omega))]
        exact extractFrames_stuck X (Or.inr (by omega))
    · rw [extractFrames_stuck X (Or.inl (by omega))]
      exact extractFrames_stuck X (Or.inl (by omega))

lemma extractFrames_saturated (X : List Nat) :
    extractFrames (extractFrames X).2 = ([], (extractFrames X).2) :=
  extractFrames_saturated_aux X.length X le_rfl

lemma extractFrames_append_aux : ∀ (n : Nat) (X Y : List Nat), X.length ≤ n →
    extractFrames (X ++ Y) =
      ((extractFrames X).1 ++ (extractFrames ((extractFrames X).2 ++ Y)).1,
       (extractFrames ((extractFrames X).2 ++ Y)).2) := by
  intro n
  induction n with
  | zero =>
    intro X Y hX
    have : X = [] := List.length_eq_zero.mp (Nat.le_zero.mp hX)
    subst this
    rw [extractFrames_nil]
    simp
  | succ n ih =>
    intro X Y hX
    by_cases h1 : 4 ≤ X.length
    · by_cases h2 : 4 + readLE4 X ≤ X.length
      · have hread : readLE4 (X ++ Y) = readLE4 X := readLE4_append X Y h1
        rw [extractFrames_step (X ++ Y) (by simp; omega)
            (by rw [hread]; simp [List.length_append]; omega), hread,
          List.drop_append_of_le_length (by omega),
          List.take_append_of_le_length (by simp [List.length_drop]; omega),
          List.drop_append_of_le_length (by omega),
          extractFrames_step X h1 h2,
          ih (X.drop (4 + readLE4 X)) Y (by simp [List.length_drop]; omega)]
        simp
      · rw [extractFrames_stuck X (Or.inr (by omega))]
        simp
    · rw [extractFrames_stuck X (Or.inl (by omega))]
      simp

lemma extractFrames_append (X Y : List Nat) :
    extractFrames (X ++ Y) =
      ((extractFrames X).1 ++ (extractFrames ((extractFrames X).2 ++ Y)).1,
       (extractFrames ((extractFrames X).2 ++ Y)).2) :=
  extractFrames_append_aux X.length X Y le_rfl

lemma feedChunks_eq : ∀ (cs : List (List Nat)) (buf : List Nat),
    extractFrames buf = ([], buf) →
    feedChunks buf cs = extractFrames (buf ++ cs.flatten) := by
  intro cs
  induction cs with
  | nil =>
    intro buf hsat
    simp [feedChunks, hsat]
  | cons c cs ih =>
    intro buf hsat
    have hrec := ih ((extractFrames (buf ++ c)).2) (extractFrames_saturated (buf ++ c))
    simp only [feedChunks, hrec, List.flatten_cons, ← List.append_assoc]
    exact (extractFrames_append (buf ++ c) cs.flatten).symm

/-- Claim C9: the inner-channel framing round-trips — encoding writes a
4-byte little-endian length prefix followed by exactly that many payload
bytes, and however the encoded byte stream of a message sequence is split
into read chunks, the read loop delivers exactly the original payload
sequence in order, with an empty buffer left over. -/
theorem framing_roundtrip (ps cs : List (List Nat))
    (hlen : ∀ p ∈ ps, p.length < 2 ^ 32)
    (hchunks : cs.flatten = encodeStream ps) :
    feedChunks [] cs = (ps, []) := by
  rw [feedChunks_eq cs [] extractFrames_nil, List.nil_append, hchunks,
    extractFrames_encodeStream ps hlen]

/-- Witness for C9 at a concrete input: the two frames `[104,105]` and
`[33]`, with the 11-byte encoded stream split into chunks that cut through
both length prefixes, are reassembled exactly. -/
theorem framing_roundtrip_witness :
    (∀ p ∈ [[104, 105], [33]], List.length p < 2 ^ 32)
    ∧ ([[2, 0], [0, 0, 104, 105, 1], [0, 0, 0, 33]] : List (List Nat)).flatten =
        encodeStream [[104, 105], [33]]
    ∧ feedChunks [] [[2, 0], [0, 0, 104, 105, 1], [0, 0, 0, 33]] = ([[104, 105], [33]], []) :=
  ⟨by decide, by decide,
   framing_roundtrip [[104, 105], [33]] [[2, 0], [0, 0, 104, 105, 1], [0, 0, 0, 33]]
     (by decide) (by decide)⟩

end AgentMd
